import Mathlib

/-!
Verification of the file-rescue scanning engine (`rescue.cpp`).

The buffer is modelled as a `List Nat` of byte values; pointers into the
buffer become natural-number offsets, and `end` becomes `buf.length`.
Each C loop is embedded as a structurally recursive function whose fuel
argument counts exactly the iterations the loop's counter bound allows,
so that the definitions evaluate on concrete inputs.
-/

namespace Rescue

/-- Reading `mem[i]` through the mapped buffer: byte at offset `i`.
Out-of-range offsets have no defined byte; `getD` returns 0 there
(the program is only ever meant to read in range; where an out-of-range
read matters we track it explicitly, see `ascii_go`). -/
def byteAt (buf : List Nat) (i : Nat) : Nat :=
  buf.getD i 0

/-- Condition of one iteration of the `check_if_bytes_match` loop
(rescue.cpp lines 86-87), minus the `i < pattern_size` bound which the
fuel of `check_go` encodes: `&mem[i] != end && (mem[i] & mask[i]) == pattern[i]`. -/
def checkCond (buf : List Nat) (pos : Nat) (pattern mask : List Nat) (j : Nat) : Prop :=
  pos + j ≠ buf.length ∧ byteAt buf (pos + j) &&& mask.getD j 0 = pattern.getD j 0

instance (buf : List Nat) (pos : Nat) (pattern mask : List Nat) (j : Nat) :
    Decidable (checkCond buf pos pattern mask j) :=
  inferInstanceAs (Decidable (_ ∧ _))

/-- Loop of `check_if_bytes_match` (rescue.cpp lines 84-89):
`while (i < pattern_size && &mem[i] != end && (mem[i] & mask[i]) == pattern[i]) i++`.
The fuel is `pattern_size - i`, so fuel 0 is exactly the exit `i = pattern_size`.
Returns the final value of `i`. -/
def check_go (buf : List Nat) (pos : Nat) (pattern mask : List Nat) :
    Nat → Nat → Nat
  | 0, i => i
  | fuel + 1, i =>
    if checkCond buf pos pattern mask i then
      check_go buf pos pattern mask fuel (i + 1)
    else i

/-- Function `check_if_bytes_match` (rescue.cpp lines 77-92): masked pattern
comparison; returns `i == pattern_size` after the scan loop. -/
def check_if_bytes_match (buf : List Nat) (pos : Nat) (pattern_size : Nat)
    (pattern mask : List Nat) : Bool :=
  check_go buf pos pattern mask pattern_size 0 == pattern_size

/-- JFIF header pattern (rescue.cpp lines 114-117). -/
def jfif_pattern : List Nat :=
  [0xFF, 0xD8, 0xFF, 0xE0, 0, 0, 0x4A, 0x46, 0x49, 0x46, 0x00, 0x01]

/-- EXIF header pattern (rescue.cpp lines 119-122). -/
def exif_pattern : List Nat :=
  [0xFF, 0xD8, 0xFF, 0xE1, 0, 0, 0x45, 0x78, 0x69, 0x66, 0x00, 0x00]

/-- Shared JPEG header mask (rescue.cpp lines 124-127): bytes 4 and 5
(the segment length) are wildcarded. -/
def jpeg_mask : List Nat :=
  [0xFF, 0xFF, 0xFF, 0xFF, 0, 0, 0xFF, 0xFF, 0xFF, 0xFF, 0xFF, 0xFF]

/-- Function `jpeg_is_header` (rescue.cpp lines 103-134): the position carries a
JPEG header when either the JFIF or the EXIF masked pattern matches. -/
def jpeg_is_header (buf : List Nat) (pos : Nat) : Bool :=
  check_if_bytes_match buf pos 12 jfif_pattern jpeg_mask ||
  check_if_bytes_match buf pos 12 exif_pattern jpeg_mask

/-- Constant `max_length_bytes` (rescue.cpp line 153): JPEGs are assumed to be at
most 40 MiB. -/
def max_length_bytes : Nat := 40 * 1024 * 1024

/-- Body condition of the `jpeg_find_footer` loop (rescue.cpp lines 165-166):
the candidate position holds `FF D9` and is accepted as terminator -
either fewer than two bytes follow (`mem + 3 >= end`) or the two
following bytes are not `FF E1`. -/
def jpeg_is_terminator (buf : List Nat) (p : Nat) : Bool :=
  byteAt buf p == 0xFF && byteAt buf (p + 1) == 0xD9 &&
    (decide (buf.length ≤ p + 3) || byteAt buf (p + 2) != 0xFF ||
      byteAt buf (p + 3) != 0xE1)

/-- Loop of `jpeg_find_footer` (rescue.cpp lines 164-172):
`while (mem <= max_mem)`. The fuel is `max_mem + 1 - mem`, the exact
number of candidate positions, so fuel 0 is the exit `mem > max_mem`. -/
def jpeg_footer_go (buf : List Nat) : Nat → Nat → Option Nat
  | 0, _ => none
  | fuel + 1, p =>
    if jpeg_is_terminator buf p then some (p + 2)
    else jpeg_footer_go buf fuel (p + 1)

/-- Function `jpeg_find_footer` (rescue.cpp lines 146-175): search for the `FF D9`
terminator from the header position, within `min (end - 2, mem + 40 MiB)`.
Returns one past the end of the JPEG, or `none`. -/
def jpeg_find_footer (buf : List Nat) (mem : Nat) : Option Nat :=
  jpeg_footer_go buf (min (buf.length - 2) (mem + max_length_bytes) + 1 - mem) mem

/-- A fragment as handed to the sink: half-open byte range plus format tag. -/
structure Fragment where
  start : Nat
  stop : Nat
  tag : String
deriving DecidableEq, Repr

/-- Function `jpeg_rescue` (rescue.cpp lines 226-247): if a JPEG header is at `cur`
and a footer is found, the fragment `[cur, footer)` tagged "jpg" goes to
the sink; otherwise nothing is emitted. -/
def jpeg_rescue (buf : List Nat) (cur : Nat) : Option Fragment :=
  if jpeg_is_header buf cur then
    (jpeg_find_footer buf cur).map fun e => ⟨cur, e, "jpg"⟩
  else none

/-- Constant `min_size_bytes` (rescue.cpp line 263): minimum ASCII run length. -/
def min_size_bytes : Nat := 1024

/-- Loop of `ascii_rescue` (rescue.cpp lines 275-277):
`while (*cur >= 0x20 && *cur <= 0x7E && cur < end) cur++`.
The source evaluates `*cur` BEFORE testing `cur < end`, so the iteration
whose `cur` equals the buffer length still performs a read; the returned
Boolean records whether any such out-of-range read happened. The fuel is
`length + 1 - cur`: once `cur` reaches the length the condition fails, so
the fuel never runs out when starting at `cur ≤ length`. -/
def ascii_go (buf : List Nat) : Nat → Nat → Nat × Bool
  | 0, cur => (cur, decide (buf.length ≤ cur))
  | fuel + 1, cur =>
    if 0x20 ≤ byteAt buf cur ∧ byteAt buf cur ≤ 0x7E ∧ cur < buf.length then
      ascii_go buf fuel (cur + 1)
    else (cur, decide (buf.length ≤ cur))

/-- The run scan of `ascii_rescue` starting at `cur`: final cursor and
whether a byte at an offset `≥ buf.length` was read by the loop condition. -/
def ascii_loop (buf : List Nat) (cur : Nat) : Nat × Bool :=
  ascii_go buf (buf.length + 1 - cur) cur

/-- Function `ascii_rescue` (rescue.cpp lines 258-288), with the global
`g_ascii_ignore_before` passed in and out as `b`: if `cur` is before the
suppression boundary nothing happens; otherwise the printable run ending
at `e` yields the fragment `[cur, e)` tagged "txt" when at least
`min_size_bytes` long, and the boundary becomes `e` in every case. -/
def ascii_rescue (buf : List Nat) (cur b : Nat) : Option Fragment × Nat :=
  if cur < b then (none, b)
  else
    (if min_size_bytes ≤ (ascii_loop buf cur).1 - cur then
        some ⟨cur, (ascii_loop buf cur).1, "txt"⟩
      else none,
      (ascii_loop buf cur).1)

/-- Outcome of one call to the fragment sink. -/
inductive SinkOutcome where
  | wrote (bytes : Nat)
  | crashed
deriving DecidableEq, Repr

/-- Function `write_fragment` (rescue.cpp lines 187-215), persistence part
(lines 206-208): `f = fopen(filename, "w"); fwrite(start, 1, end - start, f);
fclose(f)`. The result of `fopen` is never checked, so a failed open passes
a NULL stream straight to `fwrite`/`fclose`; by the C library contract that
has no defined result and in practice terminates the process, modelled here
as `crashed`. A successful open writes `end - start` bytes. -/
def write_fragment (fopen_ok : Bool) (start stop : Nat) : SinkOutcome :=
  if fopen_ok then .wrote (stop - start) else .crashed

/-- Scan loop of `main` (rescue.cpp lines 345-360):
`while (cur != end) { jpeg_rescue(cur, end); ascii_rescue(cur, end); cur++ }`,
with `g_ascii_ignore_before` threaded through as `b`. The fuel is
`end - cur`, the exact number of iterations of the loop. Returns the
fragments emitted (in sink order) and the final suppression boundary. -/
def scan_go (buf : List Nat) : Nat → Nat → Nat → List Fragment × Nat
  | 0, _, b => ([], b)
  | fuel + 1, cur, b =>
    ((jpeg_rescue buf cur).toList ++
        ((ascii_rescue buf cur b).1.toList ++
          (scan_go buf fuel (cur + 1) (ascii_rescue buf cur b).2).1),
      (scan_go buf fuel (cur + 1) (ascii_rescue buf cur b).2).2)

/-- A full scan of a buffer: cursor from 0, fresh suppression boundary. -/
def scan (buf : List Nat) : List Fragment × Nat :=
  scan_go buf buf.length 0 0

/-- One position of the scan as the spec describes it: invoke the JPEG
detector, then the ASCII detector, accumulating fragments and threading
the suppression boundary. -/
def scanStep (buf : List Nat) (acc : List Fragment × Nat) (p : Nat) :
    List Fragment × Nat :=
  ((acc.1 ++ (jpeg_rescue buf p).toList) ++ (ascii_rescue buf p acc.2).1.toList,
    (ascii_rescue buf p acc.2).2)

/-- The scan as worded by the spec: visit every offset from 0 to
`length - 1` inclusive, exactly once, in order, one byte at a time. -/
def scanSpec (buf : List Nat) : List Fragment × Nat :=
  (List.range buf.length).foldl (scanStep buf) ([], 0)

/-! ### Pattern matcher lemmas -/

lemma check_go_sound (buf : List Nat) (pos : Nat) (pattern mask : List Nat) :
    ∀ fuel i, check_go buf pos pattern mask fuel i = fuel + i →
      ∀ j, i ≤ j → j < fuel + i → checkCond buf pos pattern mask j := by
  intro fuel
  induction fuel with
  | zero => intro i _ j hij hj; omega
  | succ fuel ih =>
    intro i h j hij hj
    rw [check_go] at h
    by_cases hc : checkCond buf pos pattern mask i
    · rw [if_pos hc] at h
      rcases Nat.eq_or_lt_of_le hij with rfl | hlt
      · exact hc
      · exact ih (i + 1) (by omega) j (by omega) (by omega)
    · rw [if_neg hc] at h
      omega

lemma check_go_complete (buf : List Nat) (pos : Nat) (pattern mask : List Nat) :
    ∀ fuel i, (∀ j, i ≤ j → j < fuel + i → checkCond buf pos pattern mask j) →
      check_go buf pos pattern mask fuel i = fuel + i := by
  intro fuel
  induction fuel with
  | zero => intro i _; rw [check_go]; omega
  | succ fuel ih =>
    intro i h
    rw [check_go, if_pos (h i (by omega) (by omega))]
    rw [ih (i + 1) (fun j h1 h2 => h j (by omega) (by omega))]
    omega

lemma check_if_bytes_match_iff (buf : List Nat) (pos psize : Nat)
    (pattern mask : List Nat) :
    check_if_bytes_match buf pos psize pattern mask = true ↔
      ∀ j, j < psize → checkCond buf pos pattern mask j := by
  unfold check_if_bytes_match
  rw [beq_iff_eq]
  constructor
  · intro h j hj
    exact check_go_sound buf pos pattern mask psize 0 (by omega) j (by omega) (by omega)
  · intro h
    have := check_go_complete buf pos pattern mask psize 0
      (fun j h1 h2 => h j (by omega))
    omega

/-- C6, counterexample: the claim's masked-comparison reading of the
matcher fails. On data byte `0x00`, pattern byte `0x01`, mask byte `0x00`,
the pattern fits and `(data & mask) = (pattern & mask)` at every index,
yet `check_if_bytes_match` returns `false`, because the source compares
`(mem[i] & mask[i]) == pattern[i]` with the pattern byte unmasked. -/
theorem check_if_bytes_match_claim_false :
    ¬ (check_if_bytes_match [0] 0 1 [1] [0] = true ↔
        (0 + 1 ≤ List.length [(0 : Nat)] ∧
          ∀ i, i < 1 →
            byteAt [0] (0 + i) &&& List.getD [0] i 0 =
              List.getD [1] i 0 &&& List.getD [0] i 0)) := by
  decide

/-- C6, amended: `check_if_bytes_match` returns true iff the full pattern
length fits before the buffer end and every pattern byte satisfies
`(data[pos+i] & mask[i]) == pattern[i]`, the pattern byte taken verbatim
(unmasked); a pattern that would run past the buffer end never matches. -/
theorem check_if_bytes_match_spec (buf : List Nat) (pos psize : Nat)
    (pattern mask : List Nat) (hpos : pos ≤ buf.length) :
    check_if_bytes_match buf pos psize pattern mask = true ↔
      (pos + psize ≤ buf.length ∧
        ∀ i, i < psize → byteAt buf (pos + i) &&& mask.getD i 0 = pattern.getD i 0) := by
  rw [check_if_bytes_match_iff]
  constructor
  · intro h
    constructor
    · by_contra hlen
      have h1 : buf.length - pos < psize := by omega
      have := h (buf.length - pos) h1
      exact this.1 (by omega)
    · intro i hi
      exact (h i hi).2
  · rintro ⟨hfit, hbytes⟩ j hj
    exact ⟨by omega, hbytes j hj⟩

/-- C6, witness: the amended theorem applied to a concrete match. -/
theorem check_if_bytes_match_spec_witness :
    (0 : Nat) ≤ List.length [(0xFF : Nat)] ∧
      0 + 1 ≤ List.length [(0xFF : Nat)] := by
  refine ⟨by decide, ?_⟩
  exact ((check_if_bytes_match_spec [0xFF] 0 1 [0xFF] [0xFF] (by decide)).mp
    (by decide)).1

/-! ### JPEG detector lemmas -/

lemma lt_length_of_byteAt_ne_zero (buf : List Nat) (i : Nat) (h : byteAt buf i ≠ 0) :
    i < buf.length := by
  by_contra hge
  exact h (by unfold byteAt; exact List.getD_eq_default _ _ (by omega))

lemma check12_bound (buf : List Nat) (H : Nat) (pat : List Nat)
    (hpat : pat.getD 0 0 = 0xFF)
    (h : check_if_bytes_match buf H 12 pat jpeg_mask = true) :
    H + 12 ≤ buf.length := by
  have P := (check_if_bytes_match_iff buf H 12 pat jpeg_mask).mp h
  have h0 := (P 0 (by omega)).2
  rw [hpat] at h0
  have hmask : jpeg_mask.getD 0 0 = 0xFF := rfl
  rw [hmask] at h0
  have hHlt : H < buf.length := by
    apply lt_length_of_byteAt_ne_zero buf (H + 0)
    intro hz
    rw [hz] at h0
    simp [Nat.zero_and] at h0
  by_contra hbig
  have hj := (P (buf.length - H) (by omega)).1
  omega

lemma jpeg_is_header_bound (buf : List Nat) (H : Nat)
    (h : jpeg_is_header buf H = true) : H + 12 ≤ buf.length := by
  rw [jpeg_is_header, Bool.or_eq_true] at h
  rcases h with h | h
  · exact check12_bound buf H jfif_pattern rfl h
  · exact check12_bound buf H exif_pattern rfl h

lemma jpeg_footer_go_none (buf : List Nat) :
    ∀ fuel p, (∀ q, p ≤ q → q < p + fuel → jpeg_is_terminator buf q = false) →
      jpeg_footer_go buf fuel p = none := by
  intro fuel
  induction fuel with
  | zero => intro p _; rfl
  | succ fuel ih =>
    intro p h
    rw [jpeg_footer_go, h p (le_refl p) (by omega)]
    simp only [Bool.false_eq_true, if_false]
    exact ih (p + 1) fun q h1 h2 => h q (by omega) (by omega)

lemma jpeg_footer_go_found (buf : List Nat) :
    ∀ fuel p F, p ≤ F → F < p + fuel → jpeg_is_terminator buf F = true →
      (∀ q, p ≤ q → q < F → jpeg_is_terminator buf q = false) →
      jpeg_footer_go buf fuel p = some (F + 2) := by
  intro fuel
  induction fuel with
  | zero => intro p F h1 h2 _ _; omega
  | succ fuel ih =>
    intro p F h1 h2 hF hfirst
    rw [jpeg_footer_go]
    rcases Nat.eq_or_lt_of_le h1 with rfl | hlt
    · rw [hF]; simp
    · rw [hfirst p (le_refl p) hlt]
      simp only [Bool.false_eq_true, if_false]
      exact ih (p + 1) F (by omega) (by omega) hF fun q hq1 hq2 => hfirst q (by omega) hq2

lemma jpeg_footer_go_bounds (buf : List Nat) :
    ∀ fuel p e, jpeg_footer_go buf fuel p = some e → p + 2 ≤ e ∧ e ≤ p + fuel + 1 := by
  intro fuel
  induction fuel with
  | zero => intro p e h; simp [jpeg_footer_go] at h
  | succ fuel ih =>
    intro p e h
    rw [jpeg_footer_go] at h
    cases ht : jpeg_is_terminator buf p with
    | true =>
      rw [ht] at h
      simp only [if_true] at h
      have : p + 2 = e := by injection h
      omega
    | false =>
      rw [ht] at h
      simp only [Bool.false_eq_true, if_false] at h
      have := ih (p + 1) e h
      omega

lemma jpeg_find_footer_found (buf : List Nat) (mem F : Nat)
    (h1 : mem ≤ F) (h2 : F ≤ min (buf.length - 2) (mem + max_length_bytes))
    (hF : jpeg_is_terminator buf F = true)
    (hfirst : ∀ q, mem ≤ q → q < F → jpeg_is_terminator buf q = false) :
    jpeg_find_footer buf mem = some (F + 2) := by
  unfold jpeg_find_footer
  exact jpeg_footer_go_found buf _ mem F h1 (by omega) hF hfirst

lemma jpeg_find_footer_none (buf : List Nat) (mem : Nat)
    (h : ∀ q, mem ≤ q → q ≤ min (buf.length - 2) (mem + max_length_bytes) →
      jpeg_is_terminator buf q = false) :
    jpeg_find_footer buf mem = none := by
  unfold jpeg_find_footer
  apply jpeg_footer_go_none
  intro q hq1 hq2
  exact h q hq1 (by omega)

lemma jpeg_find_footer_bounds (buf : List Nat) (mem e : Nat)
    (h : jpeg_find_footer buf mem = some e) :
    mem + 2 ≤ e ∧ e ≤ min (buf.length - 2) (mem + max_length_bytes) + 2 := by
  unfold jpeg_find_footer at h
  by_cases hm : mem ≤ min (buf.length - 2) (mem + max_length_bytes)
  · have := jpeg_footer_go_bounds buf _ mem e h
    omega
  · rw [show min (buf.length - 2) (mem + max_length_bytes) + 1 - mem = 0 from by omega] at h
    simp [jpeg_footer_go] at h

lemma jpeg_rescue_some (buf : List Nat) (cur e : Nat)
    (hdr : jpeg_is_header buf cur = true) (hf : jpeg_find_footer buf cur = some e) :
    jpeg_rescue buf cur = some ⟨cur, e, "jpg"⟩ := by
  unfold jpeg_rescue
  rw [hdr, hf]
  rfl

lemma jpeg_rescue_inv (buf : List Nat) (cur : Nat) (f : Fragment)
    (h : jpeg_rescue buf cur = some f) :
    f.start < f.stop ∧ f.stop ≤ buf.length := by
  unfold jpeg_rescue at h
  cases hdr : jpeg_is_header buf cur with
  | false => rw [hdr] at h; simp at h
  | true =>
    rw [hdr] at h
    simp only [if_true] at h
    cases hf : jpeg_find_footer buf cur with
    | none => rw [hf] at h; simp at h
    | some e =>
      rw [hf] at h
      have hb := jpeg_find_footer_bounds buf cur e hf
      have hlen := jpeg_is_header_bound buf cur hdr
      have h' : some (⟨cur, e, "jpg"⟩ : Fragment) = some f := h
      rw [← Option.some.inj h']
      exact ⟨show cur < e by omega, show e ≤ buf.length by omega⟩

/-- C3: with a recognized JPEG header at `H`, if `F` is the first position
at or after `H` holding `FF D9` not immediately followed by `FF E1`, with
`F ≤ H + 40 MiB` and `F + 2` within the buffer, the detector emits exactly
the fragment `[H, F + 2)` tagged "jpg"; if no such position exists in that
window, it emits nothing. -/
theorem jpeg_detector_first_terminator (buf : List Nat) (H : Nat)
    (hdr : jpeg_is_header buf H = true) :
    (∀ F, jpeg_is_terminator buf F = true → H ≤ F → F ≤ H + max_length_bytes →
        F + 2 ≤ buf.length →
        (∀ p, p < F → H ≤ p → jpeg_is_terminator buf p = false) →
        jpeg_rescue buf H = some ⟨H, F + 2, "jpg"⟩) ∧
    ((∀ p, p ≤ H + max_length_bytes → H ≤ p → p + 2 ≤ buf.length →
        jpeg_is_terminator buf p = false) →
      jpeg_rescue buf H = none) := by
  have hlen := jpeg_is_header_bound buf H hdr
  constructor
  · intro F hF hHF hwin hfit hfirst
    exact jpeg_rescue_some buf H (F + 2) hdr
      (jpeg_find_footer_found buf H F hHF (by omega) hF
        fun q h1 h2 => hfirst q h2 h1)
  · intro hno
    unfold jpeg_rescue
    rw [hdr, jpeg_find_footer_none buf H
      fun q h1 h2 => hno q (by omega) h1 (by omega)]
    rfl

/-- A 14-byte buffer: a JFIF header followed directly by `FF D9`. -/
def demo_jpeg_buf : List Nat :=
  [0xFF, 0xD8, 0xFF, 0xE0, 0x00, 0x10, 0x4A, 0x46, 0x49, 0x46, 0x00, 0x01,
   0xFF, 0xD9]

/-- C3, witness: on `demo_jpeg_buf` the terminator at offset 12 yields the
fragment `[0, 14)`. -/
theorem jpeg_detector_first_terminator_witness :
    jpeg_is_header demo_jpeg_buf 0 = true ∧
      jpeg_rescue demo_jpeg_buf 0 = some ⟨0, 14, "jpg"⟩ := by
  refine ⟨by decide, ?_⟩
  exact (jpeg_detector_first_terminator demo_jpeg_buf 0 (by decide)).1 12
    (by decide) (by decide) (by decide) (by decide) (by decide)

/-- C4: a candidate `FF D9` at `F1` immediately followed by `FF E1` is
skipped; with a later first acceptable terminator at `F2` inside the
window, the emitted fragment ends at `F2 + 2`, not at `F1 + 2`. -/
theorem jpeg_detector_skips_continuation (buf : List Nat) (H F1 F2 : Nat)
    (hdr : jpeg_is_header buf H = true)
    (hH1 : H ≤ F1)
    (hff : byteAt buf F1 = 0xFF) (hd9 : byteAt buf (F1 + 1) = 0xD9)
    (hc1 : byteAt buf (F1 + 2) = 0xFF) (hc2 : byteAt buf (F1 + 3) = 0xE1)
    (h12 : F1 < F2)
    (hterm : jpeg_is_terminator buf F2 = true)
    (hwin : F2 ≤ H + max_length_bytes) (hfit : F2 + 2 ≤ buf.length)
    (hfirst : ∀ p, p < F2 → H ≤ p → p ≠ F1 → jpeg_is_terminator buf p = false) :
    jpeg_rescue buf H = some ⟨H, F2 + 2, "jpg"⟩ ∧ F2 + 2 ≠ F1 + 2 := by
  have hlen := jpeg_is_header_bound buf H hdr
  have hlen3 : F1 + 3 < buf.length :=
    lt_length_of_byteAt_ne_zero buf (F1 + 3) (by rw [hc2]; decide)
  have hF1 : jpeg_is_terminator buf F1 = false := by
    simp [jpeg_is_terminator, hff, hd9, hc1, hc2]
    omega
  refine ⟨jpeg_rescue_some buf H (F2 + 2) hdr
    (jpeg_find_footer_found buf H F2 (by omega) (by omega) hterm ?_), by omega⟩
  intro q h1 h2
  by_cases hq : q = F1
  · rw [hq]; exact hF1
  · exact hfirst q h2 h1 hq

/-- An 18-byte buffer: JFIF header, then `FF D9 FF E1`, then `FF D9`. -/
def demo_jpeg_multipart : List Nat :=
  [0xFF, 0xD8, 0xFF, 0xE0, 0x00, 0x10, 0x4A, 0x46, 0x49, 0x46, 0x00, 0x01,
   0xFF, 0xD9, 0xFF, 0xE1, 0xFF, 0xD9]

/-- C4, witness: on `demo_jpeg_multipart` the fragment ends at the second
`FF D9` (offset 16) plus 2, not the first (offset 12) plus 2. -/
theorem jpeg_detector_skips_continuation_witness :
    jpeg_is_header demo_jpeg_multipart 0 = true ∧
      jpeg_rescue demo_jpeg_multipart 0 = some ⟨0, 18, "jpg"⟩ := by
  refine ⟨by decide, ?_⟩
  exact (jpeg_detector_skips_continuation demo_jpeg_multipart 0 12 16
    (by decide) (by decide) (by decide) (by decide) (by decide) (by decide)
    (by decide) (by decide) (by decide) (by decide) (by decide)).1

/-- C10: a candidate `FF D9` at `p` with `p + 3 ≥ buffer length` (fewer
than two bytes after it) is accepted as terminator with no continuation
check - no hypothesis on any byte past `p + 1` is needed; in particular a
JPEG whose `FF D9` ends exactly at the buffer end is accepted. -/
theorem jpeg_footer_accepts_truncated_tail (buf : List Nat) (H p : Nat)
    (hff : byteAt buf p = 0xFF) (hd9 : byteAt buf (p + 1) = 0xD9)
    (hshort : buf.length ≤ p + 3)
    (hHp : H ≤ p) (hwin : p ≤ H + max_length_bytes) (hfit : p + 2 ≤ buf.length)
    (hfirst : ∀ q, q < p → H ≤ q → jpeg_is_terminator buf q = false) :
    jpeg_is_terminator buf p = true ∧ jpeg_find_footer buf H = some (p + 2) := by
  have ht : jpeg_is_terminator buf p = true := by
    simp [jpeg_is_terminator, hff, hd9, hshort]
  exact ⟨ht, jpeg_find_footer_found buf H p hHp (by omega) ht
    fun q h1 h2 => hfirst q h2 h1⟩

/-- C10, witness: the two-byte buffer `FF D9` whose terminator ends exactly
at the buffer end is accepted, yielding footer position 2. -/
theorem jpeg_footer_accepts_truncated_tail_witness :
    byteAt [0xFF, 0xD9] 0 = 0xFF ∧ jpeg_find_footer [0xFF, 0xD9] 0 = some 2 := by
  refine ⟨by decide, ?_⟩
  exact (jpeg_footer_accepts_truncated_tail [0xFF, 0xD9] 0 0 (by decide)
    (by decide) (by decide) (by decide) (by decide) (by decide) (by decide)).2

/-! ### ASCII detector lemmas -/

lemma ascii_go_ge (buf : List Nat) :
    ∀ fuel cur, cur ≤ (ascii_go buf fuel cur).1 := by
  intro fuel
  induction fuel with
  | zero => intro cur; exact Nat.le_refl cur
  | succ fuel ih =>
    intro cur
    rw [ascii_go]
    by_cases hc : 0x20 ≤ byteAt buf cur ∧ byteAt buf cur ≤ 0x7E ∧ cur < buf.length
    · rw [if_pos hc]
      exact le_trans (by omega) (ih (cur + 1))
    · rw [if_neg hc]

lemma ascii_go_le (buf : List Nat) :
    ∀ fuel cur, cur ≤ buf.length → (ascii_go buf fuel cur).1 ≤ buf.length := by
  intro fuel
  induction fuel with
  | zero => intro cur h; exact h
  | succ fuel ih =>
    intro cur h
    rw [ascii_go]
    by_cases hc : 0x20 ≤ byteAt buf cur ∧ byteAt buf cur ≤ 0x7E ∧ cur < buf.length
    · rw [if_pos hc]
      exact ih (cur + 1) (by omega)
    · rw [if_neg hc]
      exact h

lemma ascii_go_printable (buf : List Nat) :
    ∀ fuel cur i, cur ≤ i → i < (ascii_go buf fuel cur).1 →
      0x20 ≤ byteAt buf i ∧ byteAt buf i ≤ 0x7E := by
  intro fuel
  induction fuel with
  | zero =>
    intro cur i h1 h2
    simp only [ascii_go] at h2
    omega
  | succ fuel ih =>
    intro cur i h1 h2
    rw [ascii_go] at h2
    by_cases hc : 0x20 ≤ byteAt buf cur ∧ byteAt buf cur ≤ 0x7E ∧ cur < buf.length
    · rw [if_pos hc] at h2
      rcases Nat.eq_or_lt_of_le h1 with rfl | hlt
      · exact ⟨hc.1, hc.2.1⟩
      · exact ih (cur + 1) i (by omega) h2
    · rw [if_neg hc] at h2
      exact absurd h2 (by omega)

lemma ascii_go_stop (buf : List Nat) :
    ∀ fuel cur, buf.length + 1 ≤ fuel + cur →
      (ascii_go buf fuel cur).1 < buf.length →
      ¬(0x20 ≤ byteAt buf ((ascii_go buf fuel cur).1) ∧
        byteAt buf ((ascii_go buf fuel cur).1) ≤ 0x7E) := by
  intro fuel
  induction fuel with
  | zero =>
    intro cur hfuel hlt
    simp only [ascii_go] at hlt
    omega
  | succ fuel ih =>
    intro cur hfuel hlt
    rw [ascii_go] at hlt ⊢
    by_cases hc : 0x20 ≤ byteAt buf cur ∧ byteAt buf cur ≤ 0x7E ∧ cur < buf.length
    · rw [if_pos hc] at hlt ⊢
      exact ih (cur + 1) (by omega) hlt
    · rw [if_neg hc] at hlt ⊢
      intro hpr
      exact hc ⟨hpr.1, hpr.2, hlt⟩

lemma ascii_rescue_snd (buf : List Nat) (pos b : Nat) (hb : b ≤ pos) :
    (ascii_rescue buf pos b).2 = (ascii_loop buf pos).1 := by
  unfold ascii_rescue
  rw [if_neg (by omega : ¬ pos < b)]

lemma ascii_rescue_fst (buf : List Nat) (pos b : Nat) (hb : b ≤ pos) :
    (ascii_rescue buf pos b).1 =
      if min_size_bytes ≤ (ascii_loop buf pos).1 - pos then
        some ⟨pos, (ascii_loop buf pos).1, "txt"⟩
      else none := by
  unfold ascii_rescue
  rw [if_neg (by omega : ¬ pos < b)]

/-- C5: when the ASCII detector runs at or past the suppression boundary,
the new boundary is the end of the maximal printable run from the scan
position (capped at the buffer end): every byte of `[pos, run_end)` is in
`[0x20, 0x7E]`, the byte at `run_end` (if any) is not, and a "txt"
fragment `[pos, run_end)` is emitted exactly when the run is at least
1024 bytes long. -/
theorem ascii_rescue_run_characterization (buf : List Nat) (pos b : Nat)
    (hb : b ≤ pos) (hpos : pos ≤ buf.length) :
    pos ≤ (ascii_rescue buf pos b).2 ∧
    (ascii_rescue buf pos b).2 ≤ buf.length ∧
    (∀ i, pos ≤ i → i < (ascii_rescue buf pos b).2 →
      0x20 ≤ byteAt buf i ∧ byteAt buf i ≤ 0x7E) ∧
    ((ascii_rescue buf pos b).2 < buf.length →
      ¬(0x20 ≤ byteAt buf ((ascii_rescue buf pos b).2) ∧
        byteAt buf ((ascii_rescue buf pos b).2) ≤ 0x7E)) ∧
    ((ascii_rescue buf pos b).1 =
      if min_size_bytes ≤ (ascii_rescue buf pos b).2 - pos then
        some ⟨pos, (ascii_rescue buf pos b).2, "txt"⟩
      else none) := by
  rw [ascii_rescue_snd buf pos b hb, ascii_rescue_fst buf pos b hb]
  unfold ascii_loop
  refine ⟨ascii_go_ge buf _ pos, ascii_go_le buf _ pos hpos,
    fun i h1 h2 => ascii_go_printable buf _ pos i h1 h2,
    ascii_go_stop buf _ pos (by omega), rfl⟩

/-- C5, witness: the characterization applied to a one-byte printable
buffer; the run is too short, so no fragment, and the boundary is the
buffer end. -/
theorem ascii_rescue_run_characterization_witness :
    (0 : Nat) ≤ 0 ∧ (ascii_rescue [0x41] 0 0).2 ≤ List.length [(0x41 : Nat)] := by
  refine ⟨Nat.le_refl 0, ?_⟩
  exact (ascii_rescue_run_characterization [0x41] 0 0 (Nat.le_refl 0)
    (by decide)).2.1

/-- C2 fails on the code: the run-scan loop condition at rescue.cpp:275
evaluates `*cur` before testing `cur < end`, so on the one-byte printable
buffer `[0x41]` the scan starting at position 0 performs a read at offset
1 = length (the out-of-bounds branch of the byte lookup); the run is
nevertheless still measured to the actual buffer end. -/
theorem ascii_scan_reads_past_buffer_end :
    (ascii_loop [0x41] 0).2 = true ∧ (ascii_loop [0x41] 0).1 = 1 := by
  decide

lemma ascii_rescue_boundary_le (buf : List Nat) (pos b : Nat) :
    b ≤ (ascii_rescue buf pos b).2 := by
  unfold ascii_rescue
  by_cases h : pos < b
  · rw [if_pos h]
  · rw [if_neg h]
    exact le_trans (by omega) (ascii_go_ge buf _ pos)

lemma scan_go_boundary_le (buf : List Nat) :
    ∀ fuel cur b, b ≤ (scan_go buf fuel cur b).2 := by
  intro fuel
  induction fuel with
  | zero => intro cur b; exact Nat.le_refl b
  | succ fuel ih =>
    intro cur b
    rw [scan_go]
    exact le_trans (ascii_rescue_boundary_le buf cur b)
      (ih (cur + 1) (ascii_rescue buf cur b).2)

/-- C8: the ASCII suppression boundary only moves forward - a single
detector invocation never decreases it, and neither does any sequence of
scan iterations. -/
theorem suppression_boundary_monotone (buf : List Nat) (pos fuel cur b : Nat) :
    b ≤ (ascii_rescue buf pos b).2 ∧ b ≤ (scan_go buf fuel cur b).2 :=
  ⟨ascii_rescue_boundary_le buf pos b, scan_go_boundary_le buf fuel cur b⟩

/-! ### Scan driver lemmas -/

lemma ascii_rescue_fst_suppressed (buf : List Nat) (cur b : Nat) (h : cur < b) :
    (ascii_rescue buf cur b).1 = none := by
  unfold ascii_rescue
  rw [if_pos h]

lemma ascii_rescue_inv (buf : List Nat) (cur b : Nat) (f : Fragment)
    (hcur : cur ≤ buf.length) (h : (ascii_rescue buf cur b).1 = some f) :
    f.start < f.stop ∧ f.stop ≤ buf.length := by
  by_cases hlt : cur < b
  · rw [ascii_rescue_fst_suppressed buf cur b hlt] at h
    simp at h
  · rw [ascii_rescue_fst buf cur b (by omega)] at h
    by_cases hm : min_size_bytes ≤ (ascii_loop buf cur).1 - cur
    · rw [if_pos hm] at h
      have hle : (ascii_loop buf cur).1 ≤ buf.length := ascii_go_le buf _ cur hcur
      have h' := Option.some.inj h
      rw [← h']
      refine ⟨show cur < (ascii_loop buf cur).1 from ?_, hle⟩
      have : min_size_bytes = 1024 := rfl
      omega
    · rw [if_neg hm] at h
      simp at h

lemma scan_go_inv (buf : List Nat) :
    ∀ fuel cur b, fuel + cur ≤ buf.length →
      ∀ f, f ∈ (scan_go buf fuel cur b).1 →
        f.start < f.stop ∧ f.stop ≤ buf.length := by
  intro fuel
  induction fuel with
  | zero =>
    intro cur b _ f hf
    simp [scan_go] at hf
  | succ fuel ih =>
    intro cur b h f hf
    rw [scan_go] at hf
    rcases List.mem_append.mp hf with hj | hrest
    · rw [Option.mem_toList, Option.mem_def] at hj
      exact jpeg_rescue_inv buf cur f hj
    · rcases List.mem_append.mp hrest with ha | hr
      · rw [Option.mem_toList, Option.mem_def] at ha
        exact ascii_rescue_inv buf cur b f (by omega) ha
      · exact ih (cur + 1) (ascii_rescue buf cur b).2 (by omega) f hr

/-- C7: every fragment produced during a scan - by either detector, over
any buffer - satisfies `start < stop` and `stop ≤ buffer length`. -/
theorem scan_fragments_in_bounds (buf : List Nat) (f : Fragment)
    (hf : f ∈ (scan buf).1) : f.start < f.stop ∧ f.stop ≤ buf.length :=
  scan_go_inv buf buf.length 0 0 (by omega) f hf

/-- C7, witness: the jpg fragment produced by scanning `demo_jpeg_buf`
is within bounds. -/
theorem scan_fragments_in_bounds_witness :
    (⟨0, 14, "jpg"⟩ : Fragment) ∈ (scan demo_jpeg_buf).1 ∧
      (0 : Nat) < 14 ∧ 14 ≤ demo_jpeg_buf.length := by
  have hm : (⟨0, 14, "jpg"⟩ : Fragment) ∈ (scan demo_jpeg_buf).1 := by decide
  exact ⟨hm, scan_fragments_in_bounds demo_jpeg_buf ⟨0, 14, "jpg"⟩ hm⟩

lemma scan_go_foldl (buf : List Nat) :
    ∀ fuel cur b acc,
      (List.range' cur fuel).foldl (scanStep buf) (acc, b) =
        (acc ++ (scan_go buf fuel cur b).1, (scan_go buf fuel cur b).2) := by
  intro fuel
  induction fuel with
  | zero =>
    intro cur b acc
    simp [scan_go, List.range']
  | succ fuel ih =>
    intro cur b acc
    rw [List.range'_succ, List.foldl_cons]
    show (List.range' (cur + 1) fuel).foldl (scanStep buf)
        ((acc ++ (jpeg_rescue buf cur).toList) ++ (ascii_rescue buf cur b).1.toList,
          (ascii_rescue buf cur b).2) = _
    rw [ih (cur + 1) (ascii_rescue buf cur b).2]
    rw [scan_go]
    simp [List.append_assoc]

/-- C9: the scan driver owns the cursor and visits every offset from 0 to
`length - 1` inclusive exactly once, in order, invoking the JPEG detector
then the ASCII detector at each offset and advancing by exactly one byte
per iteration regardless of matches: the source scan loop equals the left
fold of the per-offset step over `List.range buf.length`. -/
theorem scan_driver_visits_every_offset (buf : List Nat) :
    scan buf = scanSpec buf := by
  unfold scan scanSpec
  rw [List.range_eq_range', scan_go_foldl buf buf.length 0 0 []]
  simp

/-! ### Fragment sink -/

/-- C1 fails on the code: `write_fragment` never checks the result of
`fopen` (rescue.cpp lines 206-208), so when artifact creation fails the
NULL stream is passed straight to `fwrite`/`fclose` and the process
crashes instead of dropping the fragment, reporting a diagnostic and
letting the scan continue. -/
theorem write_fragment_crashes_on_failed_open :
    write_fragment false 0 2048 = SinkOutcome.crashed := rfl

end Rescue
